import Mathlib

/-!
The class `threadsafe::queue`.

A shallow embedding of `src/queue.hpp`: the class `threadsafe::queue<T>` with its
operations `push`, `blocking_pop`, `release` and the private helpers
`throw_if_released` and `pop_front`.

Every public operation of the class takes `mutex_` for its whole body, so the
operations are serialised: an execution of the class by any number of threads is a
sequence of atomic calls on the pair (`released_`, `queue_`).  The embedding is that
sequential machine.  The mutex and the condition variable carry no data; what the
condition variable does (suspend the caller of `blocking_pop` while the predicate is
false, run the predicate again at each wake-up) is the outcome `waiting` and the
function `queue.wait`.  Which threads are suspended and which have been woken is the
state `condition_variable`; `monitor` puts it next to the data, and `monitor.step` is one
acquisition of the mutex by one thread.
-/

namespace threadsafe

/-- The exception `std::runtime_error`, with its `what()` message. -/
structure runtime_error where
  what : String
deriving DecidableEq

/-- How a call ends: it returns a value, it throws, it is suspended inside
`std::condition_variable::wait`, or it has run into undefined behaviour
(`front()` / `pop()` of an empty `std::queue`). -/
inductive outcome (α : Type) where
  | returned (a : α)
  | thrown (e : runtime_error)
  | waiting
  | undefined
deriving DecidableEq

/-- Sequencing of two steps of a function body: the second runs only when the first
has returned. -/
def outcome.bind {α β : Type} : outcome α → (α → outcome β) → outcome β
  | .returned a, f => f a
  | .thrown e, _ => .thrown e
  | .waiting, _ => .waiting
  | .undefined, _ => .undefined

/-- The data members of `threadsafe::queue<T>`: `std::atomic<bool> released_` and
`std::queue<T> queue_`, the latter as the list of its elements from front to back. -/
structure queue (T : Type) where
  released_ : Bool
  queue_ : List T
deriving DecidableEq

variable {T : Type}

/-- The constructor `queue() = default`: `released_ {false}` and an empty `queue_`. -/
def queue.ctor : queue T :=
  { released_ := false, queue_ := [] }

/-- The helper `throw_if_released`:
`if (released_) throw std::runtime_error("Queue released");`. -/
def queue.throw_if_released (q : queue T) : outcome Unit :=
  if q.released_ then .thrown ⟨"Queue released"⟩ else .returned ()

/-- The operation `push(T data)`: `throw_if_released(); queue_.push(std::move(data));`
then `notify_one()`, which changes no data.  The result is the queue after the call. -/
def queue.push (q : queue T) (data : T) : outcome (queue T) :=
  q.throw_if_released.bind fun _ =>
    .returned { q with queue_ := q.queue_ ++ [data] }

/-- The helper `pop_front`: `auto data = std::move(queue_.front()); queue_.pop();
return data;`.  It has no emptiness check; on an empty `queue_` the behaviour of
`front()` is undefined. -/
def queue.pop_front (q : queue T) : outcome (T × queue T) :=
  match q.queue_ with
  | [] => .undefined
  | data :: rest => .returned (data, { q with queue_ := rest })

/-- The predicate handed to `wait` in `blocking_pop`:
`[this]{ throw_if_released(); return !queue_.empty(); }`. -/
def queue.wait_predicate (q : queue T) : outcome Bool :=
  q.throw_if_released.bind fun _ => .returned (!q.queue_.isEmpty)

/-- One pass of `blocking_pop()` under the lock: the predicate is evaluated once; if it
throws the exception leaves the call, if it is false the caller is suspended in `wait`
(outcome `waiting`, the data untouched), if it is true `pop_front()` runs. -/
def queue.blocking_pop (q : queue T) : outcome (T × queue T) :=
  q.wait_predicate.bind fun ready =>
    if ready then q.pop_front else .waiting

/-- The operation `release()`: `released_ = true; notify_all(); return std::move(queue_);`.
The returned `std::queue` is move-constructed from `queue_`; the moved-from `queue_` is
the empty container (what the move constructor of `std::deque` leaves behind in
libstdc++, libc++ and the MSVC library). -/
def queue.release (q : queue T) : List T × queue T :=
  (q.queue_, { released_ := true, queue_ := [] })

/-- A call of one of the three public operations. -/
inductive call (T : Type) where
  | push (data : T)
  | blocking_pop
  | release
deriving DecidableEq

/-- A call together with what it gave back to its caller. -/
inductive event (T : Type) where
  | push (data : T) (r : outcome Unit)
  | blocking_pop (r : outcome T)
  | release (r : List T)
deriving DecidableEq

/-- One atomic call on the queue: what the caller observes and the queue afterwards.
A call that throws, is suspended or is undefined leaves the data as it found them. -/
def step (c : call T) (q : queue T) : event T × queue T :=
  match c with
  | .push data =>
    match q.push data with
    | .returned q1 => (.push data (.returned ()), q1)
    | .thrown e => (.push data (.thrown e), q)
    | .waiting => (.push data .waiting, q)
    | .undefined => (.push data .undefined, q)
  | .blocking_pop =>
    match q.blocking_pop with
    | .returned (data, q1) => (.blocking_pop (.returned data), q1)
    | .thrown e => (.blocking_pop (.thrown e), q)
    | .waiting => (.blocking_pop .waiting, q)
    | .undefined => (.blocking_pop .undefined, q)
  | .release => (.release q.release.1, q.release.2)

/-- A sequence of atomic calls, in the order in which they take the mutex: the events
in that order and the final queue. -/
def run : List (call T) → queue T → List (event T) × queue T
  | [], q => ([], q)
  | c :: cs, q => ((step c q).1 :: (run cs (step c q).2).1, (run cs (step c q).2).2)

/-- The same sequence with the thread that issues each call: every event is labelled
with its thread, and the thread plays no part in what the call does. -/
def run_by (cs : List (Nat × call T)) (q : queue T) : List (Nat × event T) × queue T :=
  ((cs.map Prod.fst).zip (run (cs.map Prod.snd) q).1, (run (cs.map Prod.snd) q).2)

/-- The values whose `push` returned normally, in call order. -/
def pushed : List (event T) → List T
  | [] => []
  | .push data (.returned _) :: es => data :: pushed es
  | _ :: es => pushed es

/-- The values returned by `blocking_pop` calls, in call order. -/
def popped : List (event T) → List T
  | [] => []
  | .blocking_pop (.returned data) :: es => data :: popped es
  | _ :: es => popped es

/-- The contents of all the sequences returned by `release` calls, in call order. -/
def released : List (event T) → List T
  | [] => []
  | .release r :: es => r ++ released es
  | _ :: es => released es

/-- The call `on_push_or_release_.wait(lock, pred)`, that is `while (!pred()) wait(lock);`.
Each element of `env` is what the other threads do to the queue while the caller is
suspended, up to its next wake-up (an empty element is a spurious wake-up).  The result
is the queue on which the predicate returned true; with `env` used up and the predicate
still false the caller is still `waiting`. -/
def queue.wait (q : queue T) : List (List (call T)) → outcome (queue T)
  | [] =>
    q.wait_predicate.bind fun ready =>
      if ready then .returned q else .waiting
  | others :: env =>
    q.wait_predicate.bind fun ready =>
      if ready then .returned q else queue.wait (run others q).2 env

/-- The whole of `blocking_pop()` for a caller that may be suspended and woken:
`wait(lock, pred); return pop_front();`. -/
def queue.blocking_pop_woken (q : queue T) (env : List (List (call T))) :
    outcome (T × queue T) :=
  (q.wait env).bind fun q1 => q1.pop_front

/-- A merge of the calls of two threads: `true` lets the first thread make its next call,
`false` the second; a thread with no call left yields to the other. -/
def interleave {α : Type} : List Bool → List α → List α → List α
  | [], xs, ys => xs ++ ys
  | true :: _, [], ys => ys
  | true :: sched, x :: xs, ys => x :: interleave sched xs ys
  | false :: _, xs, [] => xs
  | false :: sched, xs, y :: ys => y :: interleave sched xs ys

/-- The list `zs` is a merge of `xs` and `ys`: it is made of the elements of `xs` and of
`ys`, each list in its own order. -/
inductive is_merge {α : Type} : List α → List α → List α → Prop where
  | nil : is_merge [] [] []
  | left (x : α) {xs ys zs : List α} : is_merge xs ys zs → is_merge (x :: xs) ys (x :: zs)
  | right (y : α) {xs ys zs : List α} : is_merge xs ys zs → is_merge xs (y :: ys) (y :: zs)

/-- The calls of a producer thread `t` that pushes the batch `xs` in order
(`boost::for_each(strings_to_push, [&](auto const& s){ queue_.push(s); })`). -/
def pushes_of (t : Nat) (xs : List T) : List (Nat × call T) :=
  xs.map fun x => (t, call.push x)

/-- One `blocking_pop` call by each of the listed consumer threads, in that order. -/
def pops_of (consumers : List Nat) : List (Nat × call T) :=
  consumers.map fun c => (c, call.blocking_pop)

/-- The threads held by the `std::condition_variable on_push_or_release_`: those
suspended in `wait` (`waiting`), and those that have been woken and will run their
predicate again as soon as they get `mutex_` back (`notified`). -/
structure condition_variable where
  waiting : List Nat
  notified : List Nat
deriving DecidableEq

/-- Thread `t` finds its predicate false inside `wait`: it gives up the mutex and is
suspended. -/
def condition_variable.suspend (t : Nat) (cv : condition_variable) : condition_variable :=
  { cv with waiting := cv.waiting ++ [t] }

/-- The call `notify_one()`: one of the suspended threads, if there is any, is woken;
which one is not specified, `pick` is the choice made. -/
def condition_variable.notify_one (pick : Nat) (cv : condition_variable) :
    condition_variable :=
  match cv.waiting[pick % cv.waiting.length]? with
  | none => cv
  | some t => { waiting := cv.waiting.erase t, notified := cv.notified ++ [t] }

/-- The call `notify_all()`: every suspended thread is woken. -/
def condition_variable.notify_all (cv : condition_variable) : condition_variable :=
  { waiting := [], notified := cv.notified ++ cv.waiting }

/-- A woken thread `t` has the mutex again and is about to run its predicate. -/
def condition_variable.leave (t : Nat) (cv : condition_variable) : condition_variable :=
  { cv with notified := cv.notified.erase t }

/-- The queue object as the threads share it: its data and the threads that are inside
`blocking_pop` on its condition variable. -/
structure monitor (T : Type) where
  data : queue T
  on_push_or_release_ : condition_variable
deriving DecidableEq

/-- What a thread does at one acquisition of `mutex_`: it enters a public operation
(`pick` is the choice `notify_one` makes, used by `push` only), or, having been notified
inside `blocking_pop`, it comes back from `wait` and runs the predicate again; `spurious`
is a suspended thread woken without a notification. -/
inductive action (T : Type) where
  | enter (t : Nat) (c : call T) (pick : Nat)
  | wake (t : Nat)
  | spurious (t : Nat)
deriving DecidableEq

/-- The effect of a call of thread `t` on the condition variable, from how the call went:
a `push` that got past `throw_if_released` ends with `notify_one()`, `release` calls
`notify_all()`, a `blocking_pop` whose predicate was false suspends `t`. -/
def condition_variable.after (t pick : Nat) (e : event T) (cv : condition_variable) :
    condition_variable :=
  match e with
  | .push _ (.returned _) => cv.notify_one pick
  | .release _ => cv.notify_all
  | .blocking_pop .waiting => cv.suspend t
  | _ => cv

/-- One acquisition of the mutex: the event the acting thread sees, if it acts, and the
shared object afterwards.  A thread that is inside `blocking_pop` cannot enter a call; a
thread that was not woken cannot come back from `wait`. -/
def monitor.step (a : action T) (m : monitor T) : Option (Nat × event T) × monitor T :=
  match a with
  | .enter t c pick =>
    if t ∈ m.on_push_or_release_.waiting ∨ t ∈ m.on_push_or_release_.notified then
      (none, m)
    else
      (some (t, (threadsafe.step c m.data).1),
        ⟨(threadsafe.step c m.data).2, m.on_push_or_release_.after t pick (threadsafe.step c m.data).1⟩)
  | .wake t =>
    if t ∈ m.on_push_or_release_.notified then
      (some (t, (threadsafe.step .blocking_pop m.data).1),
        ⟨(threadsafe.step .blocking_pop m.data).2,
          (m.on_push_or_release_.leave t).after t 0 (threadsafe.step .blocking_pop m.data).1⟩)
    else
      (none, m)
  | .spurious t =>
    if t ∈ m.on_push_or_release_.waiting then
      (none, ⟨m.data, { waiting := m.on_push_or_release_.waiting.erase t,
                        notified := m.on_push_or_release_.notified ++ [t] }⟩)
    else
      (none, m)

/-- A schedule of acquisitions of the mutex: the events seen by the threads, in order,
and the shared object at the end. -/
def monitor.run : List (action T) → monitor T → List (Nat × event T) × monitor T
  | [], m => ([], m)
  | a :: as, m =>
    (((monitor.step a m).1).toList ++ (monitor.run as (monitor.step a m).2).1,
      (monitor.run as (monitor.step a m).2).2)

/-! ## The atomic calls, state by state -/

theorem step_push_active (x : T) (xs : List T) :
    step (.push x) ⟨false, xs⟩ = (.push x (.returned ()), ⟨false, xs ++ [x]⟩) := rfl

theorem step_push_released (x : T) (xs : List T) :
    step (.push x) ⟨true, xs⟩ = (.push x (.thrown ⟨"Queue released"⟩), ⟨true, xs⟩) := rfl

theorem step_pop_empty :
    step .blocking_pop (⟨false, []⟩ : queue T) = (.blocking_pop .waiting, ⟨false, []⟩) := rfl

theorem step_pop_head (x : T) (xs : List T) :
    step .blocking_pop ⟨false, x :: xs⟩ = (.blocking_pop (.returned x), ⟨false, xs⟩) := rfl

theorem step_pop_released (xs : List T) :
    step .blocking_pop ⟨true, xs⟩
      = (.blocking_pop (.thrown ⟨"Queue released"⟩), ⟨true, xs⟩) := rfl

theorem step_release (q : queue T) :
    step .release q = (.release q.queue_, ⟨true, []⟩) := rfl

theorem run_nil (q : queue T) : run [] q = ([], q) := rfl

theorem run_cons (c : call T) (cs : List (call T)) (q : queue T) :
    run (c :: cs) q = ((step c q).1 :: (run cs (step c q).2).1, (run cs (step c q).2).2) := rfl

theorem run_append (cs ds : List (call T)) (q : queue T) :
    run (cs ++ ds) q
      = ((run cs q).1 ++ (run ds (run cs q).2).1, (run ds (run cs q).2).2) := by
  induction cs generalizing q with
  | nil => simp [run_nil]
  | cons c cs ih => simp [run_cons, ih]

/-- Pushing a batch onto an unreleased queue: every push returns and the batch is
appended behind what the queue held. -/
theorem run_pushes (xs ys : List T) :
    run (xs.map call.push) ⟨false, ys⟩
      = (xs.map (fun x => event.push x (.returned ())), ⟨false, ys ++ xs⟩) := by
  induction xs generalizing ys with
  | nil => simp [run_nil]
  | cons x xs ih => simp [run_cons, step_push_active, ih]

/-- Popping `k` times from an unreleased queue that holds at least `k` items: every
pop returns, the pops give the first `k` items in order and the rest stays. -/
theorem run_pops (k : Nat) (ys : List T) (hk : k ≤ ys.length) :
    run (List.replicate k call.blocking_pop) ⟨false, ys⟩
      = ((ys.take k).map (fun x => event.blocking_pop (.returned x)), ⟨false, ys.drop k⟩) := by
  induction k generalizing ys with
  | zero => simp [run_nil]
  | succ k ih =>
    cases ys with
    | nil => simp at hk
    | cons y ys =>
      have hk1 : k ≤ ys.length := by simpa using hk
      simp [List.replicate_succ, run_cons, step_pop_head, ih ys hk1]

theorem popped_append (es fs : List (event T)) :
    popped (es ++ fs) = popped es ++ popped fs := by
  induction es with
  | nil => rfl
  | cons e es ih =>
    cases e with
    | push d r => simpa [popped] using ih
    | blocking_pop r => cases r <;> simp [popped, ih]
    | release r => simpa [popped] using ih

theorem pushed_append (es fs : List (event T)) :
    pushed (es ++ fs) = pushed es ++ pushed fs := by
  induction es with
  | nil => rfl
  | cons e es ih =>
    cases e with
    | push d r => cases r <;> simp [pushed, ih]
    | blocking_pop r => simpa [pushed] using ih
    | release r => simpa [pushed] using ih

theorem released_append (es fs : List (event T)) :
    released (es ++ fs) = released es ++ released fs := by
  induction es with
  | nil => rfl
  | cons e es ih =>
    cases e with
    | push d r => simpa [released] using ih
    | blocking_pop r => simpa [released] using ih
    | release r => simp [released, ih]

theorem popped_push_events (xs : List T) :
    popped (xs.map (fun x => event.push x (.returned ()))) = [] := by
  induction xs with
  | nil => rfl
  | cons x xs ih => simpa [popped] using ih

theorem popped_pop_events (xs : List T) :
    popped (xs.map (fun x => event.blocking_pop (.returned x))) = xs := by
  induction xs with
  | nil => rfl
  | cons x xs ih => simpa [popped] using ih

theorem released_push_events (xs : List T) :
    released (xs.map (fun x => event.push x (.returned ()))) = [] := by
  induction xs with
  | nil => rfl
  | cons x xs ih => simpa [released] using ih

theorem released_pop_events (xs : List T) :
    released (xs.map (fun x => event.blocking_pop (.returned x))) = [] := by
  induction xs with
  | nil => rfl
  | cons x xs ih => simpa [released] using ih

/-! ## Single producer, single consumer -/

/-- C1 (FIFO): on a freshly constructed queue, pushing the elements of `xs` in order and
then calling `blocking_pop` `xs.length` times makes every push return, makes the i-th pop
return the i-th element of `xs`, and leaves the queue as constructed; the popped
sequence is `xs`. -/
theorem C1_push_then_pop_is_fifo (xs : List T) :
    run (xs.map call.push ++ List.replicate xs.length call.blocking_pop) queue.ctor
        = (xs.map (fun x => event.push x (.returned ()))
            ++ xs.map (fun x => event.blocking_pop (.returned x)), queue.ctor)
      ∧ popped (run (xs.map call.push
          ++ List.replicate xs.length call.blocking_pop) queue.ctor).1 = xs := by
  have h : run (xs.map call.push ++ List.replicate xs.length call.blocking_pop) queue.ctor
        = (xs.map (fun x => event.push x (.returned ()))
            ++ xs.map (fun x => event.blocking_pop (.returned x)), queue.ctor) := by
    rw [run_append]
    show (_, _) = (_, _)
    unfold queue.ctor
    rw [run_pushes, run_pops _ _ (by simp)]
    simp
  refine ⟨h, ?_⟩
  rw [h, popped_append, popped_push_events, popped_pop_events]
  rfl

/-- C2 (release returns the unconsumed items): on a freshly constructed queue, pushing
`xs` in order, calling `blocking_pop` `k ≤ xs.length` times and then calling `release()`
makes the pushes return, the pops return the first `k` elements, and `release()` return
`xs` without its first `k` elements, in order. -/
theorem C2_release_gives_items_not_popped (xs : List T) (k : Nat) (hk : k ≤ xs.length) :
    run (xs.map call.push ++ List.replicate k call.blocking_pop ++ [call.release])
        queue.ctor
      = (xs.map (fun x => event.push x (.returned ()))
          ++ (xs.take k).map (fun x => event.blocking_pop (.returned x))
          ++ [event.release (xs.drop k)], ⟨true, []⟩)
    ∧ ((run (xs.map call.push ++ List.replicate k call.blocking_pop) queue.ctor).2).release.1
      = xs.drop k := by
  have h : run (xs.map call.push ++ List.replicate k call.blocking_pop) queue.ctor
      = (xs.map (fun x => event.push x (.returned ()))
          ++ (xs.take k).map (fun x => event.blocking_pop (.returned x)),
          ⟨false, xs.drop k⟩) := by
    rw [run_append]
    unfold queue.ctor
    rw [run_pushes, run_pops _ _ (by simpa using hk)]
    simp
  constructor
  · rw [run_append, h]
    simp [run_cons, run_nil, step_release]
  · rw [h]
    rfl

/-- C2 at the strings of the test `release_gives_strings_not_pulled`: three pushes, one pop, then `release()`. -/
theorem C2_release_gives_items_not_popped_witness :
    run (["First", "Second", "Third"].map call.push
          ++ List.replicate 1 call.blocking_pop ++ [call.release]) queue.ctor
      = (["First", "Second", "Third"].map (fun x => event.push x (.returned ()))
          ++ (["First", "Second", "Third"].take 1).map
              (fun x => event.blocking_pop (.returned x))
          ++ [event.release (["First", "Second", "Third"].drop 1)], ⟨true, []⟩)
    ∧ ((run (["First", "Second", "Third"].map call.push
          ++ List.replicate 1 call.blocking_pop) queue.ctor).2).release.1
      = ["First", "Second", "Third"].drop 1 :=
  C2_release_gives_items_not_popped ["First", "Second", "Third"] 1 (by decide)

/-! ## Conservation of items -/

theorem run_length (cs : List (call T)) (q : queue T) :
    (run cs q).1.length = cs.length := by
  induction cs generalizing q with
  | nil => rfl
  | cons c cs ih => simp [run_cons, ih]

/-- The thread labels of `run_by` sit on top of the events of `run`. -/
theorem run_by_events (cs : List (Nat × call T)) (q : queue T) :
    (run_by cs q).1.map Prod.snd = (run (cs.map Prod.snd) q).1 := by
  unfold run_by
  apply List.map_snd_zip
  simp [run_length]

/-- Once released and empty, the queue stays so and gives nothing out and takes nothing
in, whatever is called. -/
theorem run_released (cs : List (call T)) :
    (run cs (⟨true, []⟩ : queue T)).2 = ⟨true, []⟩
      ∧ pushed (run cs (⟨true, []⟩ : queue T)).1 = []
      ∧ popped (run cs (⟨true, []⟩ : queue T)).1 = []
      ∧ released (run cs (⟨true, []⟩ : queue T)).1 = [] := by
  induction cs with
  | nil => exact ⟨rfl, rfl, rfl, rfl⟩
  | cons c cs ih =>
    obtain ⟨h1, h2, h3, h4⟩ := ih
    cases c with
    | push x =>
      simp only [run_cons, step_push_released]
      exact ⟨h1, by simpa [pushed] using h2, by simpa [popped] using h3,
        by simpa [released] using h4⟩
    | blocking_pop =>
      simp only [run_cons, step_pop_released]
      exact ⟨h1, by simpa [pushed] using h2, by simpa [popped] using h3,
        by simpa [released] using h4⟩
    | release =>
      simp only [run_cons, step_release]
      exact ⟨h1, by simpa [pushed] using h2, by simpa [popped] using h3,
        by simpa [released] using h4⟩

/-- A sequence of calls that contains a `release` ends released and empty. -/
theorem run_with_release (cs : List (call T)) (q : queue T) (h : call.release ∈ cs) :
    (run cs q).2 = ⟨true, []⟩ := by
  induction cs generalizing q with
  | nil => simp at h
  | cons c cs ih =>
    rw [run_cons]
    by_cases hc : c = call.release
    · subst hc
      rw [step_release]
      exact (run_released cs).1
    · have h1 : call.release ∈ cs := by
        rcases List.mem_cons.mp h with h0 | h0
        · exact absurd h0.symm hc
        · exact h0
      exact ih _ h1

/-- What has left the queue (by `blocking_pop` or `release`) together with what is still
in it is, as a multiset, what it held at the start together with what was pushed. -/
theorem run_conserves (cs : List (call T)) (q : queue T) :
    ((popped (run cs q).1 : Multiset T) + (released (run cs q).1 : Multiset T)
        + ((run cs q).2.queue_ : Multiset T))
      = (q.queue_ : Multiset T) + (pushed (run cs q).1 : Multiset T) := by
  induction cs generalizing q with
  | nil => simp [run_nil, popped, released, pushed]
  | cons c cs ih =>
    obtain ⟨r, items⟩ := q
    rw [run_cons]
    cases c with
    | push x =>
      cases r with
      | false =>
        have h := ih ⟨false, items ++ [x]⟩
        simp only [step_push_active, popped, released, pushed]
        rw [h]
        simp
      | true =>
        have h := ih ⟨true, items⟩
        simp only [step_push_released, popped, released, pushed]
        exact h
    | blocking_pop =>
      cases r with
      | false =>
        cases items with
        | nil =>
          have h := ih ⟨false, []⟩
          simp only [step_pop_empty, popped, released, pushed]
          exact h
        | cons y ys =>
          have h := ih ⟨false, ys⟩
          simp only [step_pop_head, popped, released, pushed]
          rw [← Multiset.cons_coe, ← Multiset.cons_coe, Multiset.cons_add, Multiset.cons_add,
            Multiset.cons_add, h]
      | true =>
        have h := ih ⟨true, items⟩
        simp only [step_pop_released, popped, released, pushed]
        exact h
    | release =>
      have h := ih ⟨true, []⟩
      simp only [step_release, queue.release, popped, released, pushed]
      rw [← Multiset.coe_add items]
      have h0 : ((([] : List T) : Multiset T)) = 0 := rfl
      rw [h0, zero_add] at h
      rw [← h]
      abel

/-- C3 (no loss, duplication or fabrication): for every finite sequence of `push`,
`blocking_pop` and `release` calls, issued by any threads and applied atomically in any
order to a freshly constructed queue, if the sequence contains a `release` then the
multiset of the values returned by `blocking_pop` calls together with the values in the
sequences returned by `release` calls is the multiset of the values whose `push`
returned. -/
theorem C3_popped_and_released_are_the_pushed (cs : List (Nat × call T))
    (h : ∃ t, (t, call.release) ∈ cs) :
    ((popped ((run_by cs queue.ctor).1.map Prod.snd) : Multiset T)
        + (released ((run_by cs queue.ctor).1.map Prod.snd) : Multiset T))
      = (pushed ((run_by cs queue.ctor).1.map Prod.snd) : Multiset T) := by
  obtain ⟨t, ht⟩ := h
  have hmem : call.release ∈ cs.map Prod.snd := List.mem_map.mpr ⟨(t, call.release), ht, rfl⟩
  have hc := run_conserves (cs.map Prod.snd) (queue.ctor : queue T)
  rw [run_with_release _ _ hmem] at hc
  rw [run_by_events]
  have h0 : ((([] : List T) : Multiset T)) = 0 := rfl
  simpa [queue.ctor, h0] using hc

/-- C3 at a sequence of calls by four threads in which a push and a pop come after the `release`. -/
theorem C3_popped_and_released_are_the_pushed_witness :
    ((popped ((run_by [(1, call.push "a"), (2, call.push "b"), (3, call.blocking_pop),
          (0, call.release), (1, call.push "c"), (3, call.blocking_pop)]
          queue.ctor).1.map Prod.snd) : Multiset String)
        + (released ((run_by [(1, call.push "a"), (2, call.push "b"), (3, call.blocking_pop),
          (0, call.release), (1, call.push "c"), (3, call.blocking_pop)]
          queue.ctor).1.map Prod.snd) : Multiset String))
      = (pushed ((run_by [(1, call.push "a"), (2, call.push "b"), (3, call.blocking_pop),
          (0, call.release), (1, call.push "c"), (3, call.blocking_pop)]
          queue.ctor).1.map Prod.snd) : Multiset String) :=
  C3_popped_and_released_are_the_pushed _ ⟨0, by decide⟩

/-! ## The exception -/

/-- C4 (the exception is thrown exactly on a released queue): in every queue state,
`push(x)` throws exactly when `released_` is true and `blocking_pop()` throws exactly when
`released_` is true; on an unreleased queue `push` returns with `x` appended, and
`blocking_pop` either waits (empty queue) or returns the head; and the only exception ever
thrown is `std::runtime_error("Queue released")`. -/
theorem C4_thrown_iff_released (q : queue T) (x : T) :
    ((∃ e, q.push x = .thrown e) ↔ q.released_ = true)
    ∧ ((∃ e, q.blocking_pop = .thrown e) ↔ q.released_ = true)
    ∧ (q.released_ = false → q.push x = .returned ⟨false, q.queue_ ++ [x]⟩)
    ∧ (q.released_ = false →
        (q.queue_ = [] ∧ q.blocking_pop = .waiting)
        ∨ (∃ h t, q.queue_ = h :: t ∧ q.blocking_pop = .returned (h, ⟨false, t⟩)))
    ∧ (∀ e, q.push x = .thrown e → e = ⟨"Queue released"⟩)
    ∧ (∀ e, q.blocking_pop = .thrown e → e = ⟨"Queue released"⟩) := by
  obtain ⟨r, items⟩ := q
  cases r <;> cases items <;>
    simp [queue.push, queue.blocking_pop, queue.wait_predicate, queue.throw_if_released,
      outcome.bind, queue.pop_front]

/-- C5 (no push after release): from every queue state and for every item `x`, after
`release()` the call `push(x)` throws `std::runtime_error("Queue released")` and leaves
`queue_` and `released_` as they were before the push; and whatever calls follow, no
`blocking_pop` returns a value and every `release` returns the empty sequence, so `x` is
returned by none of them. -/
theorem C5_no_push_after_release (q : queue T) (x : T) (cs : List (call T)) :
    q.release.2.push x = .thrown ⟨"Queue released"⟩
    ∧ step (.push x) q.release.2 = (.push x (.thrown ⟨"Queue released"⟩), q.release.2)
    ∧ popped (run cs (step (.push x) q.release.2).2).1 = []
    ∧ released (run cs (step (.push x) q.release.2).2).1 = []
    ∧ x ∉ popped (run cs (step (.push x) q.release.2).2).1
    ∧ x ∉ released (run cs (step (.push x) q.release.2).2).1 := by
  have hs : step (.push x) q.release.2
      = (.push x (.thrown ⟨"Queue released"⟩), q.release.2) := rfl
  have hr : q.release.2 = ⟨true, []⟩ := rfl
  obtain ⟨_, _, h3, h4⟩ := run_released cs (T := T)
  refine ⟨rfl, hs, ?_, ?_, ?_, ?_⟩
  · rw [hs, hr]; exact h3
  · rw [hs, hr]; exact h4
  · rw [hs, hr, h3]; simp
  · rw [hs, hr, h4]; simp

theorem wait_released (q : queue T) (h : q.released_ = true) (env : List (List (call T))) :
    q.wait env = .thrown ⟨"Queue released"⟩ := by
  obtain ⟨r, items⟩ := q
  simp only at h
  subst h
  cases env <;> rfl

/-- C6 (no pop after release, even if items remain): in every queue state whose
`released_` is true, with `queue_` empty or not, the predicate of `blocking_pop` throws
before it looks at `queue_`, so `blocking_pop()` throws `std::runtime_error("Queue
released")`, for a caller that arrives as for one that is woken, no item is removed or
returned; and `release()` followed by `blocking_pop()` throws whatever the queue
held. -/
theorem C6_no_pop_after_release (q : queue T) (h : q.released_ = true)
    (env : List (List (call T))) (q0 : queue T) :
    q.wait_predicate = .thrown ⟨"Queue released"⟩
    ∧ q.blocking_pop = .thrown ⟨"Queue released"⟩
    ∧ step .blocking_pop q = (.blocking_pop (.thrown ⟨"Queue released"⟩), q)
    ∧ q.blocking_pop_woken env = .thrown ⟨"Queue released"⟩
    ∧ run [call.release, call.blocking_pop] q0
        = ([.release q0.queue_, .blocking_pop (.thrown ⟨"Queue released"⟩)], ⟨true, []⟩) := by
  refine ⟨?_, ?_, ?_, ?_, rfl⟩
  · obtain ⟨r, items⟩ := q
    simp only at h
    subst h
    rfl
  · obtain ⟨r, items⟩ := q
    simp only at h
    subst h
    rfl
  · obtain ⟨r, items⟩ := q
    simp only at h
    subst h
    rfl
  · unfold queue.blocking_pop_woken
    rw [wait_released q h env]
    rfl

/-- C6 at a released queue that still holds two strings. -/
theorem C6_no_pop_after_release_witness :
    (⟨true, ["Second", "Third"]⟩ : queue String).wait_predicate
        = .thrown ⟨"Queue released"⟩
    ∧ (⟨true, ["Second", "Third"]⟩ : queue String).blocking_pop
        = .thrown ⟨"Queue released"⟩
    ∧ step .blocking_pop (⟨true, ["Second", "Third"]⟩ : queue String)
        = (.blocking_pop (.thrown ⟨"Queue released"⟩), ⟨true, ["Second", "Third"]⟩)
    ∧ (⟨true, ["Second", "Third"]⟩ : queue String).blocking_pop_woken [[.push "x"]]
        = .thrown ⟨"Queue released"⟩
    ∧ run [call.release, call.blocking_pop] (⟨false, ["First"]⟩ : queue String)
        = ([.release (⟨false, ["First"]⟩ : queue String).queue_,
            .blocking_pop (.thrown ⟨"Queue released"⟩)], ⟨true, []⟩) :=
  C6_no_pop_after_release ⟨true, ["Second", "Third"]⟩ rfl [[.push "x"]] ⟨false, ["First"]⟩

/-! ## After release -/

/-- C7 (only the first release returns items): from every queue state, after a first
`release()` and any sequence `cs` of `push` / `blocking_pop` / `release` calls, the queue
is released and empty, every `release` among `cs` has returned the empty sequence, and a
`release()` called next returns the empty sequence and leaves the state as it is. -/
theorem C7_later_release_returns_nothing (q : queue T) (cs : List (call T)) :
    (run cs q.release.2).2 = ⟨true, []⟩
    ∧ (∀ r, event.release r ∈ (run cs q.release.2).1 → r = [])
    ∧ (run cs q.release.2).2.release = ([], (run cs q.release.2).2)
    ∧ step .release (run cs q.release.2).2 = (.release [], (run cs q.release.2).2) := by
  have hr : q.release.2 = ⟨true, []⟩ := rfl
  have hfin : (run cs q.release.2).2 = ⟨true, []⟩ := by rw [hr]; exact (run_released cs).1
  refine ⟨hfin, ?_, ?_, ?_⟩
  · rw [hr]
    intro r hmem
    obtain ⟨pre, post, hsplit⟩ := List.append_of_mem hmem
    have h4 := (run_released cs (T := T)).2.2.2
    rw [hsplit, released_append] at h4
    have h5 : released (event.release r :: post) = [] := (List.append_eq_nil.mp h4).2
    simp only [released] at h5
    exact (List.append_eq_nil.mp h5).1
  · rw [hfin]; rfl
  · rw [hfin]; rfl

theorem step_keeps_released (c : call T) (q : queue T) (h : q.released_ = true) :
    (step c q).2.released_ = true := by
  obtain ⟨r, items⟩ := q
  simp only at h
  subst h
  cases c <;> rfl

theorem run_keeps_released (cs : List (call T)) (q : queue T) (h : q.released_ = true) :
    (run cs q).2.released_ = true := by
  induction cs generalizing q with
  | nil => exact h
  | cons c cs ih =>
    rw [run_cons]
    exact ih _ (step_keeps_released c q h)

/-- C8 (released is irrevocable): in every queue state in which `released_` is true,
after any one call (`push` with any argument, `blocking_pop`, `release`) `released_` is
still true, and so it is after any sequence of calls; hence along every sequence of
calls from any state, once `released_` is true after some calls it is true after any
further calls. -/
theorem C8_released_is_irrevocable (q : queue T) (h : q.released_ = true) :
    (∀ c : call T, (step c q).2.released_ = true)
    ∧ (∀ cs : List (call T), (run cs q).2.released_ = true)
    ∧ (∀ (q0 : queue T) (cs ds : List (call T)), (run cs q0).2 = q →
        (run (cs ++ ds) q0).2.released_ = true) := by
  refine ⟨fun c => step_keeps_released c q h, fun cs => run_keeps_released cs q h, ?_⟩
  intro q0 cs ds hq
  rw [run_append]
  exact run_keeps_released ds _ (by rw [hq]; exact h)

/-- C8 at the released, empty queue. -/
theorem C8_released_is_irrevocable_witness :
    (∀ c : call String, (step c ⟨true, []⟩).2.released_ = true)
    ∧ (∀ cs : List (call String), (run cs ⟨true, []⟩).2.released_ = true)
    ∧ (∀ (q0 : queue String) (cs ds : List (call String)), (run cs q0).2 = ⟨true, []⟩ →
        (run (cs ++ ds) q0).2.released_ = true) :=
  C8_released_is_irrevocable ⟨true, []⟩ rfl

/-! ## Waiting -/

/-- A caller suspended on an empty, unreleased queue that is woken with nothing changed
(a spurious wake-up) goes back to waiting, any number of times. -/
theorem wait_spurious (n : Nat) :
    (queue.ctor : queue T).wait (List.replicate n []) = .waiting := by
  induction n with
  | zero => rfl
  | succ n ih =>
    rw [List.replicate_succ]
    exact ih

theorem wait_until_push (n : Nat) (x : T) :
    (queue.ctor : queue T).wait (List.replicate n [] ++ [[call.push x]])
      = .returned ⟨false, [x]⟩ := by
  induction n with
  | zero => rfl
  | succ n ih =>
    rw [List.replicate_succ]
    exact ih

/-! ## Several producers, several consumers -/

theorem map_interleave {α β : Type} (f : α → β) (sched : List Bool) (xs ys : List α) :
    (interleave sched xs ys).map f = interleave sched (xs.map f) (ys.map f) := by
  induction sched generalizing xs ys with
  | nil => simp [interleave]
  | cons b sched ih =>
    cases b with
    | true =>
      cases xs with
      | nil => simp [interleave]
      | cons x xs => simp [interleave, ih]
    | false =>
      cases ys with
      | nil => simp [interleave]
      | cons y ys => simp [interleave, ih]

theorem interleave_perm {α : Type} (sched : List Bool) (xs ys : List α) :
    (interleave sched xs ys).Perm (xs ++ ys) := by
  induction sched generalizing xs ys with
  | nil => simp [interleave]
  | cons b sched ih =>
    cases b with
    | true =>
      cases xs with
      | nil => simp [interleave]
      | cons x xs => simpa [interleave] using ih xs ys
    | false =>
      cases ys with
      | nil => simp [interleave]
      | cons y ys =>
        simp only [interleave]
        exact ((ih xs ys).cons y).trans List.perm_middle.symm

theorem interleave_sublist_left {α : Type} (sched : List Bool) (xs ys : List α) :
    xs.Sublist (interleave sched xs ys) := by
  induction sched generalizing xs ys with
  | nil => simp [interleave]
  | cons b sched ih =>
    cases b with
    | true =>
      cases xs with
      | nil => simp [interleave]
      | cons x xs => simpa [interleave] using ih xs ys
    | false =>
      cases ys with
      | nil => simp [interleave]
      | cons y ys =>
        simp only [interleave]
        exact (ih xs ys).cons y

theorem interleave_sublist_right {α : Type} (sched : List Bool) (xs ys : List α) :
    ys.Sublist (interleave sched xs ys) := by
  induction sched generalizing xs ys with
  | nil => simp [interleave]
  | cons b sched ih =>
    cases b with
    | true =>
      cases xs with
      | nil => simp [interleave]
      | cons x xs =>
        simp only [interleave]
        exact (ih xs ys).cons x
    | false =>
      cases ys with
      | nil => simp [interleave]
      | cons y ys => simpa [interleave] using ih xs ys

theorem is_merge_left_only {α : Type} (xs : List α) : is_merge xs [] xs := by
  induction xs with
  | nil => exact .nil
  | cons x xs ih => exact .left x ih

theorem is_merge_right_only {α : Type} (ys : List α) : is_merge [] ys ys := by
  induction ys with
  | nil => exact .nil
  | cons y ys ih => exact .right y ih

theorem is_merge_append {α : Type} (xs ys : List α) : is_merge xs ys (xs ++ ys) := by
  induction xs with
  | nil => exact is_merge_right_only ys
  | cons x xs ih => exact .left x ih

/-- Every schedule gives a merge. -/
theorem interleave_is_merge {α : Type} (sched : List Bool) (xs ys : List α) :
    is_merge xs ys (interleave sched xs ys) := by
  induction sched generalizing xs ys with
  | nil => exact is_merge_append xs ys
  | cons b sched ih =>
    cases b with
    | true =>
      cases xs with
      | nil => exact is_merge_right_only ys
      | cons x xs => exact .left x (ih xs ys)
    | false =>
      cases ys with
      | nil => exact is_merge_left_only xs
      | cons y ys => exact .right y (ih xs ys)

/-- Every merge is given by a schedule. -/
theorem is_merge_interleave {α : Type} {xs ys zs : List α} (h : is_merge xs ys zs) :
    ∃ sched : List Bool, interleave sched xs ys = zs := by
  induction h with
  | nil => exact ⟨[], rfl⟩
  | left x _ ih =>
    obtain ⟨sched, hs⟩ := ih
    exact ⟨true :: sched, by simp [interleave, hs]⟩
  | right y _ ih =>
    obtain ⟨sched, hs⟩ := ih
    exact ⟨false :: sched, by simp [interleave, hs]⟩

/-- C10 (per-producer order, nothing lost across producers): for every pair of batches
`xs`, `ys` and every interleaving of the pushes of `xs` by producer `p1` with the pushes
of `ys` by producer `p2` onto a freshly constructed queue, `xs.length + ys.length` pops,
divided among consumer threads in any way, all return; the values in pop order are the
same interleaving of `xs` and `ys`, hence a merge of `xs` and `ys`: a permutation of
`xs ++ ys` in which `xs` and `ys` each appear as a subsequence in their own order. -/
theorem C10_producers_keep_their_order (sched : List Bool) (xs ys : List T) (p1 p2 : Nat)
    (consumers : List Nat) (h : consumers.length = xs.length + ys.length) :
    (run_by (interleave sched (pushes_of p1 xs) (pushes_of p2 ys) ++ pops_of consumers)
        queue.ctor).1.map Prod.snd
      = (interleave sched xs ys).map (fun x => event.push x (.returned ()))
        ++ (interleave sched xs ys).map (fun x => event.blocking_pop (.returned x))
    ∧ popped ((run_by (interleave sched (pushes_of p1 xs) (pushes_of p2 ys)
        ++ pops_of consumers) queue.ctor).1.map Prod.snd) = interleave sched xs ys
    ∧ is_merge xs ys (popped ((run_by (interleave sched (pushes_of p1 xs) (pushes_of p2 ys)
        ++ pops_of consumers) queue.ctor).1.map Prod.snd))
    ∧ (popped ((run_by (interleave sched (pushes_of p1 xs) (pushes_of p2 ys)
        ++ pops_of consumers) queue.ctor).1.map Prod.snd)).Perm (xs ++ ys)
    ∧ xs.Sublist (popped ((run_by (interleave sched (pushes_of p1 xs) (pushes_of p2 ys)
        ++ pops_of consumers) queue.ctor).1.map Prod.snd))
    ∧ ys.Sublist (popped ((run_by (interleave sched (pushes_of p1 xs) (pushes_of p2 ys)
        ++ pops_of consumers) queue.ctor).1.map Prod.snd)) := by
  have hcalls : (interleave sched (pushes_of p1 xs) (pushes_of p2 ys)
        ++ pops_of consumers).map Prod.snd
      = (interleave sched xs ys).map call.push
        ++ List.replicate (interleave sched xs ys).length (call.blocking_pop : call T) := by
    rw [List.map_append, map_interleave, map_interleave]
    have hlen : (interleave sched xs ys).length = consumers.length := by
      rw [(interleave_perm sched xs ys).length_eq, List.length_append, h]
    rw [hlen]
    congr 1
    · simp [pushes_of, Function.comp_def]
    · simp only [pops_of, List.map_map]
      exact List.eq_replicate_iff.mpr ⟨by simp, by simp⟩
  have hev : (run_by (interleave sched (pushes_of p1 xs) (pushes_of p2 ys)
        ++ pops_of consumers) queue.ctor).1.map Prod.snd
      = (interleave sched xs ys).map (fun x => event.push x (.returned ()))
        ++ (interleave sched xs ys).map (fun x => event.blocking_pop (.returned x)) := by
    rw [run_by_events, hcalls, run_append]
    unfold queue.ctor
    rw [run_pushes, run_pops _ _ (by simp)]
    simp
  have hpop : popped ((run_by (interleave sched (pushes_of p1 xs) (pushes_of p2 ys)
        ++ pops_of consumers) queue.ctor).1.map Prod.snd) = interleave sched xs ys := by
    rw [hev, popped_append, popped_push_events, popped_pop_events]
    rfl
  refine ⟨hev, hpop, ?_, ?_, ?_, ?_⟩
  · rw [hpop]; exact interleave_is_merge sched xs ys
  · rw [hpop]; exact interleave_perm sched xs ys
  · rw [hpop]; exact interleave_sublist_left sched xs ys
  · rw [hpop]; exact interleave_sublist_right sched xs ys

/-- C10 at two producers with two strings each and four pops shared by two consumers. -/
theorem C10_producers_keep_their_order_witness :
    (run_by (interleave [true, false, false] (pushes_of 1 ["a", "b"]) (pushes_of 2 ["c", "d"])
        ++ pops_of [7, 8, 8, 7]) queue.ctor).1.map Prod.snd
      = (interleave [true, false, false] ["a", "b"] ["c", "d"]).map
          (fun x => event.push x (.returned ()))
        ++ (interleave [true, false, false] ["a", "b"] ["c", "d"]).map
          (fun x => event.blocking_pop (.returned x))
    ∧ popped ((run_by (interleave [true, false, false] (pushes_of 1 ["a", "b"])
        (pushes_of 2 ["c", "d"]) ++ pops_of [7, 8, 8, 7]) queue.ctor).1.map Prod.snd)
        = interleave [true, false, false] ["a", "b"] ["c", "d"]
    ∧ is_merge ["a", "b"] ["c", "d"] (popped ((run_by (interleave [true, false, false]
        (pushes_of 1 ["a", "b"]) (pushes_of 2 ["c", "d"]) ++ pops_of [7, 8, 8, 7])
        queue.ctor).1.map Prod.snd))
    ∧ (popped ((run_by (interleave [true, false, false] (pushes_of 1 ["a", "b"])
        (pushes_of 2 ["c", "d"]) ++ pops_of [7, 8, 8, 7]) queue.ctor).1.map Prod.snd)).Perm
        (["a", "b"] ++ ["c", "d"])
    ∧ ["a", "b"].Sublist (popped ((run_by (interleave [true, false, false]
        (pushes_of 1 ["a", "b"]) (pushes_of 2 ["c", "d"]) ++ pops_of [7, 8, 8, 7])
        queue.ctor).1.map Prod.snd))
    ∧ ["c", "d"].Sublist (popped ((run_by (interleave [true, false, false]
        (pushes_of 1 ["a", "b"]) (pushes_of 2 ["c", "d"]) ++ pops_of [7, 8, 8, 7])
        queue.ctor).1.map Prod.snd)) :=
  C10_producers_keep_their_order [true, false, false] ["a", "b"] ["c", "d"] 1 2
    [7, 8, 8, 7] (by decide)

/-! ## Threads blocked in `blocking_pop` -/

theorem monitor_run_nil (m : monitor T) : monitor.run [] m = ([], m) := rfl

theorem monitor_run_cons (a : action T) (as : List (action T)) (m : monitor T) :
    monitor.run (a :: as) m
      = (((monitor.step a m).1).toList ++ (monitor.run as (monitor.step a m).2).1,
          (monitor.run as (monitor.step a m).2).2) := rfl

/-- Threads that call `blocking_pop` on the empty, unreleased queue are suspended one
after the other. -/
theorem monitor_poppers_suspend (ws pre : List Nat) (h : (pre ++ ws).Nodup) :
    monitor.run (ws.map fun t => action.enter t call.blocking_pop 0)
        (⟨⟨false, []⟩, ⟨pre, []⟩⟩ : monitor T)
      = (ws.map fun t => (t, event.blocking_pop .waiting), ⟨⟨false, []⟩, ⟨pre ++ ws, []⟩⟩) := by
  induction ws generalizing pre with
  | nil => simp [monitor_run_nil]
  | cons t ws ih =>
    have ht : t ∉ pre := by
      have h1 := List.nodup_middle.mp h
      exact fun hmem => (List.nodup_cons.mp h1).1 (List.mem_append_left _ hmem)
    have h2 : (pre ++ [t] ++ ws).Nodup := by simpa using h
    have hstep : monitor.step (action.enter t call.blocking_pop 0)
          (⟨⟨false, []⟩, ⟨pre, []⟩⟩ : monitor T)
        = (some (t, event.blocking_pop .waiting), ⟨⟨false, []⟩, ⟨pre ++ [t], []⟩⟩) := by
      simp [monitor.step, ht, step_pop_empty, condition_variable.after,
        condition_variable.suspend]
    rw [List.map_cons, monitor_run_cons, hstep, ih (pre ++ [t]) h2]
    simp

/-- Woken threads that find the queue released leave `blocking_pop` with the exception,
in whatever order they get the mutex. -/
theorem monitor_woken_throw (order nt : List Nat) (h : order.Perm nt) :
    monitor.run (order.map action.wake) (⟨⟨true, []⟩, ⟨[], nt⟩⟩ : monitor T)
      = (order.map fun t => (t, event.blocking_pop (.thrown ⟨"Queue released"⟩)),
          ⟨⟨true, []⟩, ⟨[], []⟩⟩) := by
  induction order generalizing nt with
  | nil =>
    have h0 : nt = [] := (List.Perm.nil_eq h).symm
    subst h0
    rfl
  | cons u rest ih =>
    obtain ⟨hu, hrest⟩ := List.cons_perm_iff_perm_erase.mp h
    have hstep : monitor.step (action.wake u) (⟨⟨true, []⟩, ⟨[], nt⟩⟩ : monitor T)
        = (some (u, event.blocking_pop (.thrown ⟨"Queue released"⟩)),
            ⟨⟨true, []⟩, ⟨[], nt.erase u⟩⟩) := by
      simp [monitor.step, hu, step_pop_released, condition_variable.after,
        condition_variable.leave]
    rw [List.map_cons, monitor_run_cons, hstep, ih (nt.erase u) hrest]
    simp

/-- On the released queue with nobody suspended, whatever the threads do next, nobody is
suspended again and every `blocking_pop` ends with the exception. -/
theorem monitor_released_stays (as : List (action T)) (nt : List Nat) :
    (monitor.run as (⟨⟨true, []⟩, ⟨[], nt⟩⟩ : monitor T)).2.data = ⟨true, []⟩
    ∧ (monitor.run as (⟨⟨true, []⟩, ⟨[], nt⟩⟩ : monitor T)).2.on_push_or_release_.waiting = []
    ∧ (∀ t o, (t, event.blocking_pop o)
          ∈ (monitor.run as (⟨⟨true, []⟩, ⟨[], nt⟩⟩ : monitor T)).1 →
        o = .thrown ⟨"Queue released"⟩) := by
  induction as generalizing nt with
  | nil => exact ⟨rfl, rfl, fun t o hmem => by simp [monitor_run_nil] at hmem⟩
  | cons a as ih =>
    rw [monitor_run_cons]
    cases a with
    | enter t c pick =>
      by_cases ht : t ∈ nt
      · have hstep : monitor.step (action.enter t c pick) (⟨⟨true, []⟩, ⟨[], nt⟩⟩ : monitor T)
            = (none, ⟨⟨true, []⟩, ⟨[], nt⟩⟩) := by simp [monitor.step, ht]
        rw [hstep]
        simpa using ih nt
      · cases c with
        | push x =>
          have hstep : monitor.step (action.enter t (call.push x) pick)
                (⟨⟨true, []⟩, ⟨[], nt⟩⟩ : monitor T)
              = (some (t, event.push x (.thrown ⟨"Queue released"⟩)),
                  ⟨⟨true, []⟩, ⟨[], nt⟩⟩) := by
            simp [monitor.step, ht, step_push_released, condition_variable.after]
          rw [hstep]
          obtain ⟨h1, h2, h3⟩ := ih nt
          refine ⟨h1, h2, ?_⟩
          intro u o hmem
          simp only [Option.toList, List.singleton_append, List.mem_cons, Prod.mk.injEq,
            false_and, and_false, false_or, reduceCtorEq] at hmem
          exact h3 u o hmem
        | blocking_pop =>
          have hstep : monitor.step (action.enter t call.blocking_pop pick)
                (⟨⟨true, []⟩, ⟨[], nt⟩⟩ : monitor T)
              = (some (t, event.blocking_pop (.thrown ⟨"Queue released"⟩)),
                  ⟨⟨true, []⟩, ⟨[], nt⟩⟩) := by
            simp [monitor.step, ht, step_pop_released, condition_variable.after]
          rw [hstep]
          obtain ⟨h1, h2, h3⟩ := ih nt
          refine ⟨h1, h2, ?_⟩
          intro u o hmem
          simp only [Option.toList, List.singleton_append, List.mem_cons, Prod.mk.injEq,
            event.blocking_pop.injEq] at hmem
          rcases hmem with ⟨_, ho⟩ | hmem
          · exact ho
          · exact h3 u o hmem
        | release =>
          have hstep : monitor.step (action.enter t call.release pick)
                (⟨⟨true, []⟩, ⟨[], nt⟩⟩ : monitor T)
              = (some (t, event.release []), ⟨⟨true, []⟩, ⟨[], nt⟩⟩) := by
            simp [monitor.step, ht, step_release, condition_variable.after,
              condition_variable.notify_all]
          rw [hstep]
          obtain ⟨h1, h2, h3⟩ := ih nt
          refine ⟨h1, h2, ?_⟩
          intro u o hmem
          simp only [Option.toList, List.singleton_append, List.mem_cons, Prod.mk.injEq,
            false_and, and_false, false_or, reduceCtorEq] at hmem
          exact h3 u o hmem
    | wake t =>
      by_cases ht : t ∈ nt
      · have hstep : monitor.step (action.wake t) (⟨⟨true, []⟩, ⟨[], nt⟩⟩ : monitor T)
            = (some (t, event.blocking_pop (.thrown ⟨"Queue released"⟩)),
                ⟨⟨true, []⟩, ⟨[], nt.erase t⟩⟩) := by
          simp [monitor.step, ht, step_pop_released, condition_variable.after,
            condition_variable.leave]
        rw [hstep]
        obtain ⟨h1, h2, h3⟩ := ih (nt.erase t)
        refine ⟨h1, h2, ?_⟩
        intro u o hmem
        simp only [Option.toList, List.singleton_append, List.mem_cons, Prod.mk.injEq,
          event.blocking_pop.injEq] at hmem
        rcases hmem with ⟨_, ho⟩ | hmem
        · exact ho
        · exact h3 u o hmem
      · have hstep : monitor.step (action.wake t) (⟨⟨true, []⟩, ⟨[], nt⟩⟩ : monitor T)
            = (none, ⟨⟨true, []⟩, ⟨[], nt⟩⟩) := by simp [monitor.step, ht]
        rw [hstep]
        simpa using ih nt
    | spurious t =>
      have hstep : monitor.step (action.spurious t) (⟨⟨true, []⟩, ⟨[], nt⟩⟩ : monitor T)
          = (none, ⟨⟨true, []⟩, ⟨[], nt⟩⟩) := by simp [monitor.step]
      rw [hstep]
      simpa using ih nt

/-- A thread `t` blocked in `blocking_pop` on the empty, unreleased queue, alone on the
condition variable, stays inside the call as long as nothing is pushed: woken spuriously
it runs the predicate, finds it false and is suspended again. -/
theorem monitor_waiter_stays (t : Nat) (as : List (action T))
    (has : ∀ a ∈ as, a = action.spurious t ∨ a = action.wake t) (m : monitor T)
    (hm : m = ⟨queue.ctor, ⟨[t], []⟩⟩ ∨ m = ⟨queue.ctor, ⟨[], [t]⟩⟩) :
    (∀ te ∈ (monitor.run as m).1, te = (t, event.blocking_pop .waiting))
    ∧ ((monitor.run as m).2 = ⟨queue.ctor, ⟨[t], []⟩⟩
        ∨ (monitor.run as m).2 = ⟨queue.ctor, ⟨[], [t]⟩⟩) := by
  induction as generalizing m with
  | nil => exact ⟨fun te hmem => by simp [monitor_run_nil] at hmem, hm⟩
  | cons a as ih =>
    have has1 : ∀ b ∈ as, b = action.spurious t ∨ b = action.wake t :=
      fun b hb => has b (List.mem_cons_of_mem _ hb)
    rw [monitor_run_cons]
    rcases has a (List.mem_cons_self _ _) with ha | ha <;> rcases hm with hm | hm <;>
      subst ha <;> subst hm
    · have hstep : monitor.step (action.spurious t)
            (⟨queue.ctor, ⟨[t], []⟩⟩ : monitor T) = (none, ⟨queue.ctor, ⟨[], [t]⟩⟩) := by
        simp [monitor.step]
      rw [hstep]
      simpa using ih has1 _ (Or.inr rfl)
    · have hstep : monitor.step (action.spurious t)
            (⟨queue.ctor, ⟨[], [t]⟩⟩ : monitor T) = (none, ⟨queue.ctor, ⟨[], [t]⟩⟩) := by
        simp [monitor.step]
      rw [hstep]
      simpa using ih has1 _ (Or.inr rfl)
    · have hstep : monitor.step (action.wake t)
            (⟨queue.ctor, ⟨[t], []⟩⟩ : monitor T) = (none, ⟨queue.ctor, ⟨[t], []⟩⟩) := by
        simp [monitor.step]
      rw [hstep]
      simpa using ih has1 _ (Or.inl rfl)
    · have hstep : monitor.step (action.wake t) (⟨queue.ctor, ⟨[], [t]⟩⟩ : monitor T)
          = (some (t, event.blocking_pop .waiting), ⟨queue.ctor, ⟨[t], []⟩⟩) := by
        simp [monitor.step, queue.ctor, step_pop_empty, condition_variable.after,
          condition_variable.leave, condition_variable.suspend]
      rw [hstep]
      obtain ⟨h1, h2⟩ := ih has1 _ (Or.inl rfl)
      refine ⟨?_, h2⟩
      intro te hmem
      simp only [Option.toList, List.singleton_append, List.mem_cons] at hmem
      rcases hmem with h0 | h0
      · exact h0
      · exact h1 te h0

/-- C9 (blocking pop waits for push): on an empty, unreleased queue the predicate of
`blocking_pop` evaluates to false, so the call does not return: nothing is thrown, the
calling thread `t` is suspended on the condition variable and `queue_` and `released_`
are unchanged, and through any wake-ups at which nothing was pushed it stays inside the
call; a `push(x)` by another thread `p` then returns and its `notify_one()` wakes `t`,
whatever choice `notify_one` makes; the woken call of `t` returns exactly `x` and leaves
the queue empty and unreleased, with nobody left on the condition variable. -/
theorem C9_pop_blocks_until_push (x : T) (n t p pick : Nat) (as : List (action T))
    (htp : t ≠ p) (has : ∀ a ∈ as, a = action.spurious t ∨ a = action.wake t) :
    (queue.ctor : queue T).wait_predicate = .returned false
    ∧ (queue.ctor : queue T).blocking_pop = .waiting
    ∧ step .blocking_pop (queue.ctor : queue T) = (.blocking_pop .waiting, queue.ctor)
    ∧ (queue.ctor : queue T).blocking_pop_woken (List.replicate n []) = .waiting
    ∧ (queue.ctor : queue T).blocking_pop_woken (List.replicate n [] ++ [[call.push x]])
        = .returned (x, queue.ctor)
    ∧ run [call.blocking_pop, call.push x, call.blocking_pop] queue.ctor
        = ([.blocking_pop .waiting, .push x (.returned ()), .blocking_pop (.returned x)],
            queue.ctor)
    ∧ monitor.step (action.enter t call.blocking_pop pick)
          (⟨queue.ctor, ⟨[], []⟩⟩ : monitor T)
        = (some (t, event.blocking_pop .waiting), ⟨queue.ctor, ⟨[t], []⟩⟩)
    ∧ (∀ te ∈ (monitor.run as (⟨queue.ctor, ⟨[t], []⟩⟩ : monitor T)).1,
          te = (t, event.blocking_pop .waiting))
    ∧ ((monitor.run as (⟨queue.ctor, ⟨[t], []⟩⟩ : monitor T)).2 = ⟨queue.ctor, ⟨[t], []⟩⟩
        ∨ (monitor.run as (⟨queue.ctor, ⟨[t], []⟩⟩ : monitor T)).2
            = ⟨queue.ctor, ⟨[], [t]⟩⟩)
    ∧ monitor.step (action.enter p (call.push x) pick)
          (⟨queue.ctor, ⟨[t], []⟩⟩ : monitor T)
        = (some (p, event.push x (.returned ())), ⟨⟨false, [x]⟩, ⟨[], [t]⟩⟩)
    ∧ monitor.step (action.wake t) (⟨⟨false, [x]⟩, ⟨[], [t]⟩⟩ : monitor T)
        = (some (t, event.blocking_pop (.returned x)), ⟨queue.ctor, ⟨[], []⟩⟩)
    ∧ monitor.run [action.enter t call.blocking_pop pick,
          action.enter p (call.push x) pick, action.wake t]
          (⟨queue.ctor, ⟨[], []⟩⟩ : monitor T)
        = ([(t, event.blocking_pop .waiting), (p, event.push x (.returned ())),
            (t, event.blocking_pop (.returned x))], ⟨queue.ctor, ⟨[], []⟩⟩) := by
  have hpt : p ≠ t := fun h => htp h.symm
  have h7 : monitor.step (action.enter t call.blocking_pop pick)
        (⟨queue.ctor, ⟨[], []⟩⟩ : monitor T)
      = (some (t, event.blocking_pop .waiting), ⟨queue.ctor, ⟨[t], []⟩⟩) := by
    simp [monitor.step, queue.ctor, step_pop_empty, condition_variable.after,
      condition_variable.suspend]
  have h10 : monitor.step (action.enter p (call.push x) pick)
        (⟨queue.ctor, ⟨[t], []⟩⟩ : monitor T)
      = (some (p, event.push x (.returned ())), ⟨⟨false, [x]⟩, ⟨[], [t]⟩⟩) := by
    simp [monitor.step, hpt, queue.ctor, step_push_active, condition_variable.after,
      condition_variable.notify_one, Nat.mod_one]
  have h11 : monitor.step (action.wake t) (⟨⟨false, [x]⟩, ⟨[], [t]⟩⟩ : monitor T)
      = (some (t, event.blocking_pop (.returned x)), ⟨queue.ctor, ⟨[], []⟩⟩) := by
    simp [monitor.step, queue.ctor, step_pop_head, condition_variable.after,
      condition_variable.leave]
  obtain ⟨h8, h9⟩ := monitor_waiter_stays t as has _ (Or.inl rfl)
  refine ⟨rfl, rfl, rfl, ?_, ?_, rfl, h7, h8, h9, h10, h11, ?_⟩
  · unfold queue.blocking_pop_woken
    rw [wait_spurious]
    rfl
  · unfold queue.blocking_pop_woken
    rw [wait_until_push]
    rfl
  · rw [monitor_run_cons, h7, monitor_run_cons, h10, monitor_run_cons, h11, monitor_run_nil]
    rfl

/-- C9 at the test `pop_block_until_push`: thread 1 blocks in `blocking_pop`, is woken
once with nothing pushed, then thread 0 pushes "First". -/
theorem C9_pop_blocks_until_push_witness :
    (queue.ctor : queue String).wait_predicate = .returned false
    ∧ (queue.ctor : queue String).blocking_pop = .waiting
    ∧ step .blocking_pop (queue.ctor : queue String) = (.blocking_pop .waiting, queue.ctor)
    ∧ (queue.ctor : queue String).blocking_pop_woken (List.replicate 2 []) = .waiting
    ∧ (queue.ctor : queue String).blocking_pop_woken
          (List.replicate 2 [] ++ [[call.push "First"]])
        = .returned ("First", queue.ctor)
    ∧ run [call.blocking_pop, call.push "First", call.blocking_pop] queue.ctor
        = ([.blocking_pop .waiting, .push "First" (.returned ()),
            .blocking_pop (.returned "First")], queue.ctor)
    ∧ monitor.step (action.enter 1 call.blocking_pop 0)
          (⟨queue.ctor, ⟨[], []⟩⟩ : monitor String)
        = (some (1, event.blocking_pop .waiting), ⟨queue.ctor, ⟨[1], []⟩⟩)
    ∧ (∀ te ∈ (monitor.run [action.spurious 1, action.wake 1]
            (⟨queue.ctor, ⟨[1], []⟩⟩ : monitor String)).1,
          te = (1, event.blocking_pop .waiting))
    ∧ ((monitor.run [action.spurious 1, action.wake 1]
            (⟨queue.ctor, ⟨[1], []⟩⟩ : monitor String)).2 = ⟨queue.ctor, ⟨[1], []⟩⟩
        ∨ (monitor.run [action.spurious 1, action.wake 1]
            (⟨queue.ctor, ⟨[1], []⟩⟩ : monitor String)).2 = ⟨queue.ctor, ⟨[], [1]⟩⟩)
    ∧ monitor.step (action.enter 0 (call.push "First") 0)
          (⟨queue.ctor, ⟨[1], []⟩⟩ : monitor String)
        = (some (0, event.push "First" (.returned ())), ⟨⟨false, ["First"]⟩, ⟨[], [1]⟩⟩)
    ∧ monitor.step (action.wake 1) (⟨⟨false, ["First"]⟩, ⟨[], [1]⟩⟩ : monitor String)
        = (some (1, event.blocking_pop (.returned "First")), ⟨queue.ctor, ⟨[], []⟩⟩)
    ∧ monitor.run [action.enter 1 call.blocking_pop 0,
          action.enter 0 (call.push "First") 0, action.wake 1]
          (⟨queue.ctor, ⟨[], []⟩⟩ : monitor String)
        = ([(1, event.blocking_pop .waiting), (0, event.push "First" (.returned ())),
            (1, event.blocking_pop (.returned "First"))], ⟨queue.ctor, ⟨[], []⟩⟩) :=
  C9_pop_blocks_until_push "First" 2 1 0 0 [action.spurious 1, action.wake 1]
    (by decide) (by decide)

/-- C11 (blocked poppers are released): any number of distinct threads `ws` that call
`blocking_pop` on the empty, unreleased queue are all suspended; a `release()` by another
thread then returns the empty sequence and wakes every one of them (nobody is left
suspended, all of `ws` are notified); in whatever order the woken threads get the mutex,
each of their `blocking_pop` calls ends by throwing `std::runtime_error("Queue
released")` and none is left inside the call; and whatever any thread does after the
release, nobody is suspended again and no `blocking_pop` returns an item. -/
theorem C11_release_wakes_blocked_poppers (ws order : List Nat) (r pick : Nat)
    (as : List (action T)) (hws : ws.Nodup) (hr : r ∉ ws) (horder : order.Perm ws) :
    monitor.run (ws.map fun t => action.enter t call.blocking_pop 0)
        (⟨queue.ctor, ⟨[], []⟩⟩ : monitor T)
      = (ws.map fun t => (t, event.blocking_pop .waiting), ⟨queue.ctor, ⟨ws, []⟩⟩)
    ∧ monitor.step (action.enter r call.release pick) (⟨queue.ctor, ⟨ws, []⟩⟩ : monitor T)
      = (some (r, event.release []), ⟨⟨true, []⟩, ⟨[], ws⟩⟩)
    ∧ monitor.run (order.map action.wake) (⟨⟨true, []⟩, ⟨[], ws⟩⟩ : monitor T)
      = (order.map fun t => (t, event.blocking_pop (.thrown ⟨"Queue released"⟩)),
          ⟨⟨true, []⟩, ⟨[], []⟩⟩)
    ∧ (monitor.run as (⟨⟨true, []⟩, ⟨[], ws⟩⟩ : monitor T)).2.on_push_or_release_.waiting = []
    ∧ (∀ t o, (t, event.blocking_pop o)
          ∈ (monitor.run as (⟨⟨true, []⟩, ⟨[], ws⟩⟩ : monitor T)).1 →
        o = .thrown ⟨"Queue released"⟩) := by
  refine ⟨?_, ?_, monitor_woken_throw order ws horder, (monitor_released_stays as ws).2.1,
    (monitor_released_stays as ws).2.2⟩
  · have h := monitor_poppers_suspend (T := T) ws [] (by simpa using hws)
    simpa [queue.ctor] using h
  · simp [monitor.step, hr, queue.ctor, step_release, condition_variable.after,
      condition_variable.notify_all]

/-- C11 at the test `popping_threads_stopped_on_release`: two threads blocked in
`blocking_pop`, a release by a third, the second thread woken first. -/
theorem C11_release_wakes_blocked_poppers_witness :
    monitor.run ([1, 2].map fun t => action.enter t call.blocking_pop 0)
        (⟨queue.ctor, ⟨[], []⟩⟩ : monitor String)
      = ([1, 2].map fun t => (t, event.blocking_pop .waiting), ⟨queue.ctor, ⟨[1, 2], []⟩⟩)
    ∧ monitor.step (action.enter 0 call.release 0) (⟨queue.ctor, ⟨[1, 2], []⟩⟩ : monitor String)
      = (some (0, event.release []), ⟨⟨true, []⟩, ⟨[], [1, 2]⟩⟩)
    ∧ monitor.run ([2, 1].map action.wake) (⟨⟨true, []⟩, ⟨[], [1, 2]⟩⟩ : monitor String)
      = ([2, 1].map fun t => (t, event.blocking_pop (.thrown ⟨"Queue released"⟩)),
          ⟨⟨true, []⟩, ⟨[], []⟩⟩)
    ∧ (monitor.run [action.wake 1, action.enter 3 call.blocking_pop 0]
          (⟨⟨true, []⟩, ⟨[], [1, 2]⟩⟩ : monitor String)).2.on_push_or_release_.waiting = []
    ∧ (∀ t o, (t, event.blocking_pop o)
          ∈ (monitor.run [action.wake 1, action.enter 3 call.blocking_pop 0]
              (⟨⟨true, []⟩, ⟨[], [1, 2]⟩⟩ : monitor String)).1 →
        o = .thrown ⟨"Queue released"⟩) :=
  C11_release_wakes_blocked_poppers [1, 2] [2, 1] 0 0
    [action.wake 1, action.enter 3 call.blocking_pop 0] (by decide) (by decide) (by decide)

/-! ## The three operations, one by one -/

/-- C12 (push appends at the tail and touches nothing else): in every unreleased queue
state with `queue_ = xs`, `push(x)` returns and the queue afterwards has
`queue_ = xs ++ [x]`, so the items it held are still there in the same order in front
of `x`, and `released_` is still false. -/
theorem C12_push_appends_at_tail (q : queue T) (x : T) (h : q.released_ = false) :
    q.push x = .returned ⟨false, q.queue_ ++ [x]⟩
    ∧ step (.push x) q = (.push x (.returned ()), ⟨false, q.queue_ ++ [x]⟩)
    ∧ (step (.push x) q).2.queue_.take q.queue_.length = q.queue_
    ∧ (step (.push x) q).2.queue_.drop q.queue_.length = [x]
    ∧ (step (.push x) q).2.released_ = false := by
  obtain ⟨r, xs⟩ := q
  simp only at h
  subst h
  refine ⟨rfl, rfl, ?_, ?_, rfl⟩
  · simp [step_push_active]
  · simp [step_push_active]

/-- C12 at the queue that holds "First" and "Second", with "Third" pushed. -/
theorem C12_push_appends_at_tail_witness :
    (⟨false, ["First", "Second"]⟩ : queue String).push "Third"
      = .returned ⟨false, (⟨false, ["First", "Second"]⟩ : queue String).queue_ ++ ["Third"]⟩
    ∧ step (.push "Third") (⟨false, ["First", "Second"]⟩ : queue String)
      = (.push "Third" (.returned ()),
          ⟨false, (⟨false, ["First", "Second"]⟩ : queue String).queue_ ++ ["Third"]⟩)
    ∧ (step (.push "Third") (⟨false, ["First", "Second"]⟩ : queue String)).2.queue_.take
        (⟨false, ["First", "Second"]⟩ : queue String).queue_.length
      = (⟨false, ["First", "Second"]⟩ : queue String).queue_
    ∧ (step (.push "Third") (⟨false, ["First", "Second"]⟩ : queue String)).2.queue_.drop
        (⟨false, ["First", "Second"]⟩ : queue String).queue_.length = ["Third"]
    ∧ (step (.push "Third") (⟨false, ["First", "Second"]⟩ : queue String)).2.released_
      = false :=
  C12_push_appends_at_tail ⟨false, ["First", "Second"]⟩ "Third" rfl

/-- C13 (pop removes exactly the head): in every unreleased queue state with
`queue_ = h :: t`, the predicate of `blocking_pop` is true at its first evaluation, so the
call does not wait, whatever the other threads would do; it returns `h`, and the queue
afterwards has `queue_ = t` and `released_` still false. -/
theorem C13_pop_removes_the_head (q : queue T) (h : T) (t : List T)
    (env : List (List (call T))) (hr : q.released_ = false) (hq : q.queue_ = h :: t) :
    q.wait_predicate = .returned true
    ∧ q.wait env = .returned q
    ∧ q.blocking_pop = .returned (h, ⟨false, t⟩)
    ∧ q.blocking_pop_woken env = .returned (h, ⟨false, t⟩)
    ∧ step .blocking_pop q = (.blocking_pop (.returned h), ⟨false, t⟩) := by
  obtain ⟨r, xs⟩ := q
  simp only at hr hq
  subst hr
  subst hq
  have hw : (⟨false, h :: t⟩ : queue T).wait env = .returned ⟨false, h :: t⟩ := by
    cases env <;> rfl
  refine ⟨rfl, hw, rfl, ?_, rfl⟩
  unfold queue.blocking_pop_woken
  rw [hw]
  rfl

/-- C13 at the queue of the test `release_gives_strings_not_pulled` after its three
pushes. -/
theorem C13_pop_removes_the_head_witness :
    (⟨false, ["First", "Second", "Third"]⟩ : queue String).wait_predicate = .returned true
    ∧ (⟨false, ["First", "Second", "Third"]⟩ : queue String).wait [[.release]]
      = .returned ⟨false, ["First", "Second", "Third"]⟩
    ∧ (⟨false, ["First", "Second", "Third"]⟩ : queue String).blocking_pop
      = .returned ("First", ⟨false, ["Second", "Third"]⟩)
    ∧ (⟨false, ["First", "Second", "Third"]⟩ : queue String).blocking_pop_woken [[.release]]
      = .returned ("First", ⟨false, ["Second", "Third"]⟩)
    ∧ step .blocking_pop (⟨false, ["First", "Second", "Third"]⟩ : queue String)
      = (.blocking_pop (.returned "First"), ⟨false, ["Second", "Third"]⟩) :=
  C13_pop_removes_the_head ⟨false, ["First", "Second", "Third"]⟩ "First"
    ["Second", "Third"] [[.release]] rfl rfl

/-- C14 (release never fails and moves the whole queue out): in every queue state,
released or not, with `queue_ = xs`, `release()` returns `xs` in order (it has no throwing
path: its event is always a `release` event), and the queue afterwards has `queue_` empty
and `released_` true. -/
theorem C14_release_moves_everything_out (q : queue T) :
    q.release = (q.queue_, ⟨true, []⟩)
    ∧ step .release q = (.release q.queue_, ⟨true, []⟩)
    ∧ (step .release q).2.queue_ = []
    ∧ (step .release q).2.released_ = true
    ∧ released [(step .release q).1] = q.queue_ := by
  refine ⟨rfl, rfl, rfl, rfl, ?_⟩
  simp [step_release, released, queue.release]

/-! ## Invariants of the reachable states -/

theorem step_keeps_released_empty (c : call T) (q : queue T)
    (h : q.released_ = true → q.queue_ = []) :
    (step c q).2.released_ = true → (step c q).2.queue_ = [] := by
  obtain ⟨r, xs⟩ := q
  cases c with
  | push x =>
    cases r with
    | false => simp [step_push_active]
    | true => simpa [step_push_released] using h
  | blocking_pop =>
    cases r with
    | false =>
      cases xs with
      | nil => simp [step_pop_empty]
      | cons y ys => simp [step_pop_head]
    | true => simpa [step_pop_released] using h
  | release => simp [step_release]

theorem run_keeps_released_empty (cs : List (call T)) (q : queue T)
    (h : q.released_ = true → q.queue_ = []) :
    (run cs q).2.released_ = true → (run cs q).2.queue_ = [] := by
  induction cs generalizing q with
  | nil => exact h
  | cons c cs ih =>
    rw [run_cons]
    exact ih _ (step_keeps_released_empty c q h)

/-- C15 (a released queue is always empty): in every state reached from a freshly
constructed queue by a finite sequence of `push`, `blocking_pop` and `release` calls, if
`released_` is true then `queue_` is empty. -/
theorem C15_released_queue_is_empty (cs : List (call T))
    (h : (run cs (queue.ctor : queue T)).2.released_ = true) :
    (run cs (queue.ctor : queue T)).2.queue_ = [] :=
  run_keeps_released_empty cs queue.ctor (by simp [queue.ctor]) h

/-- C15 at two pushes, a release and a rejected push. -/
theorem C15_released_queue_is_empty_witness :
    (run [call.push "First", call.push "Second", call.release, call.push "Third"]
      (queue.ctor : queue String)).2.queue_ = [] :=
  C15_released_queue_is_empty
    [call.push "First", call.push "Second", call.release, call.push "Third"] rfl

theorem wait_returns_ready (env : List (List (call T))) (q q1 : queue T)
    (h : q.wait env = .returned q1) :
    q1.released_ = false ∧ q1.queue_ ≠ [] ∧ q1.wait_predicate = .returned true := by
  induction env generalizing q with
  | nil =>
    obtain ⟨r, xs⟩ := q
    cases r with
    | true => exact absurd h (by simp [queue.wait, queue.wait_predicate,
        queue.throw_if_released, outcome.bind])
    | false =>
      cases xs with
      | nil => exact absurd h (by simp [queue.wait, queue.wait_predicate,
          queue.throw_if_released, outcome.bind])
      | cons y ys =>
        have h1 : (⟨false, y :: ys⟩ : queue T) = q1 := by
          simpa [queue.wait, queue.wait_predicate, queue.throw_if_released,
            outcome.bind] using h
        subst h1
        exact ⟨rfl, by simp, rfl⟩
  | cons others env ih =>
    obtain ⟨r, xs⟩ := q
    cases r with
    | true => exact absurd h (by simp [queue.wait, queue.wait_predicate,
        queue.throw_if_released, outcome.bind])
    | false =>
      cases xs with
      | nil =>
        have h1 : (run others (⟨false, []⟩ : queue T)).2.wait env = .returned q1 := by
          simpa [queue.wait, queue.wait_predicate, queue.throw_if_released,
            outcome.bind] using h
        exact ih _ h1
      | cons y ys =>
        have h1 : (⟨false, y :: ys⟩ : queue T) = q1 := by
          simpa [queue.wait, queue.wait_predicate, queue.throw_if_released,
            outcome.bind] using h
        subst h1
        exact ⟨rfl, by simp, rfl⟩

theorem step_pop_defined (q : queue T) :
    (step .blocking_pop q).1 ≠ event.blocking_pop .undefined := by
  obtain ⟨r, xs⟩ := q
  cases r with
  | false =>
    cases xs with
    | nil => simp [step_pop_empty]
    | cons y ys => simp [step_pop_head]
  | true => simp [step_pop_released]

theorem step_defined (c : call T) (q : queue T) :
    (step c q).1 ≠ event.blocking_pop .undefined := by
  cases c with
  | push x =>
    obtain ⟨r, xs⟩ := q
    cases r with
    | false => simp [step_push_active]
    | true => simp [step_push_released]
  | blocking_pop => exact step_pop_defined q
  | release => simp [step_release]

theorem run_defined (cs : List (call T)) (q : queue T) :
    event.blocking_pop .undefined ∉ (run cs q).1 := by
  induction cs generalizing q with
  | nil => simp [run_nil]
  | cons c cs ih =>
    rw [run_cons]
    intro hmem
    rcases List.mem_cons.mp hmem with h0 | h0
    · exact step_defined c q h0.symm
    · exact ih _ h0

theorem monitor_step_defined (a : action T) (m : monitor T) (t : Nat) :
    (monitor.step a m).1 ≠ some (t, event.blocking_pop .undefined) := by
  cases a with
  | enter u c pick =>
    simp only [monitor.step]
    split
    · simp
    · intro h
      simp only [Option.some.injEq, Prod.mk.injEq] at h
      exact step_defined c m.data h.2
  | wake u =>
    simp only [monitor.step]
    split
    · intro h
      simp only [Option.some.injEq, Prod.mk.injEq] at h
      exact step_pop_defined m.data h.2
    · simp
  | spurious u =>
    simp only [monitor.step]
    split <;> simp

theorem monitor_run_defined (as : List (action T)) (m : monitor T) (t : Nat) :
    (t, event.blocking_pop .undefined) ∉ (monitor.run as m).1 := by
  induction as generalizing m with
  | nil => simp [monitor_run_nil]
  | cons a as ih =>
    rw [monitor_run_cons]
    intro hmem
    rcases List.mem_append.mp hmem with h0 | h0
    · exact monitor_step_defined a m t (Option.mem_toList.mp h0)
    · exact ih _ h0

/-- C16 (`pop_front` is never applied to an empty queue): `pop_front` has no emptiness
check and is undefined exactly on an empty `queue_`; in `blocking_pop` it is reached only
on the queue on which the predicate has returned true under the lock, and there
`released_` is false and `queue_` is non-empty, so `pop_front` returns; hence no
`blocking_pop`, of a caller that arrives or of one that is woken, in a sequence of calls
or in a schedule of threads, ever ends undefined. -/
theorem C16_pop_front_only_on_nonempty (q : queue T) (env : List (List (call T)))
    (cs : List (call T)) (as : List (action T)) (m : monitor T) :
    (q.pop_front = .undefined ↔ q.queue_ = [])
    ∧ (q.wait_predicate = .returned true → q.released_ = false ∧ q.queue_ ≠ [])
    ∧ (∀ q1, q.wait env = .returned q1 →
        q1.released_ = false ∧ q1.queue_ ≠ [] ∧ q1.wait_predicate = .returned true
        ∧ q1.pop_front ≠ .undefined)
    ∧ q.blocking_pop ≠ .undefined
    ∧ q.blocking_pop_woken env ≠ .undefined
    ∧ event.blocking_pop .undefined ∉ (run cs q).1
    ∧ (∀ t, (t, event.blocking_pop .undefined) ∉ (monitor.run as m).1) := by
  have hpf : ∀ q0 : queue T, q0.pop_front = .undefined ↔ q0.queue_ = [] := by
    intro q0
    obtain ⟨r, xs⟩ := q0
    cases xs <;> simp [queue.pop_front]
  refine ⟨hpf q, ?_, ?_, ?_, ?_, run_defined cs q, monitor_run_defined as m⟩
  · obtain ⟨r, xs⟩ := q
    cases r <;> cases xs <;>
      simp [queue.wait_predicate, queue.throw_if_released, outcome.bind]
  · intro q1 h1
    obtain ⟨h2, h3, h4⟩ := wait_returns_ready env q q1 h1
    exact ⟨h2, h3, h4, fun h5 => h3 ((hpf q1).mp h5)⟩
  · obtain ⟨r, xs⟩ := q
    cases r <;> cases xs <;>
      simp [queue.blocking_pop, queue.wait_predicate, queue.throw_if_released,
        outcome.bind, queue.pop_front]
  · unfold queue.blocking_pop_woken
    cases hw : q.wait env with
    | returned q1 =>
      obtain ⟨_, h3, _⟩ := wait_returns_ready env q q1 hw
      exact fun h5 => h3 ((hpf q1).mp h5)
    | thrown e => simp [outcome.bind]
    | waiting => simp [outcome.bind]
    | undefined =>
      exfalso
      clear hpf
      induction env generalizing q with
      | nil =>
        obtain ⟨r, xs⟩ := q
        cases r <;> cases xs <;>
          simp [queue.wait, queue.wait_predicate, queue.throw_if_released,
            outcome.bind] at hw
      | cons others env ih =>
        obtain ⟨r, xs⟩ := q
        cases r with
        | true => simp [queue.wait, queue.wait_predicate, queue.throw_if_released,
            outcome.bind] at hw
        | false =>
          cases xs with
          | nil =>
            have h1 : (run others (⟨false, []⟩ : queue T)).2.wait env = .undefined := by
              simpa [queue.wait, queue.wait_predicate, queue.throw_if_released,
                outcome.bind] using hw
            exact ih _ h1
          | cons y ys => simp [queue.wait, queue.wait_predicate, queue.throw_if_released,
              outcome.bind] at hw

end threadsafe
